import Mathlib

/-
Verification development for the generate_purger repository
(src/purger/purger.py, src/purger.py).

The Python source is shallowly embedded below.  Pure string and date
manipulations become Lean functions on String / Nat / Int; the mutable
purger_dict bucket lists become explicit bucket values; Python exceptions
become Except / Option results or explicit outcome constructors; the
external collaborators (filesystem, S3, CMR, SSM, SNS) become explicit
oracle parameters so that the control flow of the source can be followed
branch by branch.

Conventions used throughout:
 * ages are carried in seconds as integers; the source computes
   age_hours = age_seconds / 3600 as a float and compares it with a
   configured threshold, which for whole-hour thresholds is equivalent to
   the integer comparison 3600 * threshold <= age_seconds used here;
 * the strptime call on the second dot-separated name segment is modelled
   with the fixed-width zero-padded reading of the format YYYYMMDDTHHMMSS,
   including calendar validation (month and day ranges, leap years) as
   performed by datetime.strptime.
-/

set_option autoImplicit false

namespace Purger

/-- Python substring test helper: true when the first list is a leading
segment of the second. -/
def leadsWith : List Char → List Char → Bool
  | [], _ => true
  | _ :: _, [] => false
  | a :: as, b :: bs => a = b && leadsWith as bs

/-- Python substring test helper: true when pat occurs contiguously in the
second list. -/
def hasTok (pat : List Char) : List Char → Bool
  | [] => leadsWith pat []
  | c :: cs => leadsWith pat (c :: cs) || hasTok pat cs

/-- The Python expression (tok in s) for strings. -/
def strHas (s tok : String) : Bool := hasTok tok.data s.data

/-- Fuelled worker for the Python str.split operation on a nonempty
separator; the fuel is an upper bound on the number of characters still to
consume, so the zero-fuel case is unreachable at the call site below. -/
def splitGo (sep : List Char) : Nat → List Char → List Char → List (List Char)
  | _, cur, [] => [cur.reverse]
  | 0, cur, _ => [cur.reverse]
  | fuel + 1, cur, c :: cs =>
    if leadsWith sep (c :: cs) = true ∧ 0 < sep.length then
      cur.reverse :: splitGo sep fuel [] ((c :: cs).drop sep.length)
    else splitGo sep fuel (c :: cur) cs

/-- Python s.split(sep) for a nonempty separator string. -/
def pySplit (s sep : String) : List String :=
  (splitGo sep.data s.data.length [] s.data).map (fun cs => String.mk cs)

/-- A UTC timestamp at second granularity, as produced by
datetime.strptime on a YYYYMMDDTHHMMSS token and by datetime.now. -/
structure Date where
  year : Nat
  month : Nat
  day : Nat
  hour : Nat
  minute : Nat
  second : Nat
deriving DecidableEq, Repr

/-- Lexicographic order on timestamps; a is strictly earlier than b. -/
def Date.before (a b : Date) : Bool :=
  if a.year ≠ b.year then decide (a.year < b.year)
  else if a.month ≠ b.month then decide (a.month < b.month)
  else if a.day ≠ b.day then decide (a.day < b.day)
  else if a.hour ≠ b.hour then decide (a.hour < b.hour)
  else if a.minute ≠ b.minute then decide (a.minute < b.minute)
  else decide (a.second < b.second)

/-- Value of a decimal digit character. -/
def digitVal (c : Char) : Option Nat :=
  if c.isDigit then some (c.toNat - 48) else none

/-- Read a list of decimal digit characters as a number; none when a
non-digit occurs. -/
def digitsToNat (cs : List Char) : Option Nat :=
  cs.foldl (fun acc c => acc.bind (fun n => (digitVal c).map (fun v => 10 * n + v)))
    (some 0)

/-- Gregorian leap year test, as used by datetime. -/
def isLeap (y : Nat) : Bool := (y % 4 = 0 && ¬ y % 100 = 0) || y % 400 = 0

/-- Number of days in a month, as validated by datetime. -/
def daysInMonth (y m : Nat) : Nat :=
  if m = 2 then (if isLeap y then 29 else 28)
  else if m = 4 ∨ m = 6 ∨ m = 9 ∨ m = 11 then 30
  else 31

/-- datetime.strptime(s, "%Y%m%dT%H%M%S") in its fixed-width zero-padded
reading: fifteen characters, digits except a literal T at index 8, with
datetime range validation.  none models the ValueError raised by the
source. -/
def parseTimestamp (s : String) : Option Date :=
  let cs := s.data
  if cs.length = 15 then
    match digitsToNat (cs.take 4), digitsToNat ((cs.drop 4).take 2),
        digitsToNat ((cs.drop 6).take 2), cs.get? 8,
        digitsToNat ((cs.drop 9).take 2), digitsToNat ((cs.drop 11).take 2),
        digitsToNat ((cs.drop 13).take 2) with
    | some y, some mo, some d, some t, some h, some mi, some sec =>
      if t = 'T' ∧ 1 ≤ y ∧ 1 ≤ mo ∧ mo ≤ 12 ∧ 1 ≤ d ∧ d ≤ daysInMonth y mo ∧
          h < 24 ∧ mi < 60 ∧ sec < 60 then
        some ⟨y, mo, d, h, mi, sec⟩
      else none
    | _, _, _, _, _, _, _ => none
  else none

/-- The source expression
datetime.strptime(nc_file.name.split(".")[1], "%Y%m%dT%H%M%S"):
take the second dot-separated segment of the file name and parse it.
none models the IndexError (no second segment) or ValueError (token not in
the expected format) raised by the source. -/
def nameTimestamp (name : String) : Option Date :=
  ((pySplit name ".").get? 1).bind parseTimestamp

/-- A holding tank candidate file: its base name, its age
(now minus modification time, seconds) and the product_name netCDF
attribute that check_processing_type reads from its content. -/
structure NcFile where
  name : String
  ageSeconds : Int
  productName : String
deriving DecidableEq, Repr

/-- The three holding tank buckets of the combiner component. -/
inductive Bucket
  | quicklook
  | refinedModis
  | refinedViirs
deriving DecidableEq, Repr

/-- The two refined thresholds read from the purger configuration
(hours). -/
structure HoldingConfig where
  modisThreshold : Int
  viirsThreshold : Int
deriving DecidableEq, Repr

/-- purger.py sort_refined_holding: two independent substring checks on
the file name, each guarded by its own threshold comparison on the age of
this file.  Note the two checks are separate if statements in the source,
not exclusive branches. -/
def sort_refined_holding (cfg : HoldingConfig) (f : NcFile) : List Bucket :=
  (if strHas f.name "MODIS" = true ∧ 3600 * cfg.modisThreshold ≤ f.ageSeconds then
    [Bucket.refinedModis]
  else []) ++
  (if strHas f.name "VIIRS" = true ∧ 3600 * cfg.viirsThreshold ≤ f.ageSeconds then
    [Bucket.refinedViirs]
  else [])

/-- purger.py check_processing_type: open the file, read product_name; an
NRT marker routes to quicklook, anything else goes through
sort_refined_holding. -/
def check_processing_type (cfg : HoldingConfig) (f : NcFile) : List Bucket :=
  if strHas f.productName "NRT" = true then [Bucket.quicklook]
  else sort_refined_holding cfg f

/-- Outcome of the loop body of sort_holding_tank for one file: either a
list of buckets the file is appended to (possibly empty, when a refined
file is below threshold or matches no family marker), or the final else
branch that only logs. -/
inductive ClassOutcome
  | sorted (bs : List Bucket)
  | unresolved
deriving DecidableEq, Repr

/-- The body of the for loop of purger.py sort_holding_tank for a single
file.  none models the exception raised by the strptime line when the
name has no parseable timestamp token. -/
def classifyEntry (cfg : HoldingConfig) (today : Date) (f : NcFile) :
    Option ClassOutcome :=
  match nameTimestamp f.name with
  | none => none
  | some d =>
    some (if d.month = today.month ∧ d.day = 1 then
        ClassOutcome.sorted (check_processing_type cfg f)
      else if d.month < today.month then
        ClassOutcome.sorted (sort_refined_holding cfg f)
      else if d.month = today.month then
        ClassOutcome.sorted [Bucket.quicklook]
      else ClassOutcome.unresolved)

/-- The three bucket file lists of the combiner entries of purger_dict. -/
def Buckets : Type := Bucket → List NcFile

/-- The cleared file lists at the start of sort_holding_tank. -/
def Buckets.empty : Buckets := fun _ => []

/-- Append a file to each of the listed buckets. -/
def bucketsAdd (b : Buckets) (f : NcFile) (bs : List Bucket) : Buckets :=
  fun k => if k ∈ bs then b k ++ [f] else b k

/-- The for loop of purger.py sort_holding_tank over the de-duplicated
holding tank pool, threading the bucket lists; an unparseable name raises
and the error carries the file name. -/
def sortLoop (cfg : HoldingConfig) (today : Date) :
    List NcFile → Buckets → Except String Buckets
  | [], b => Except.ok b
  | f :: rest, b =>
    match classifyEntry cfg today f with
    | none => Except.error f.name
    | some (ClassOutcome.sorted bs) => sortLoop cfg today rest (bucketsAdd b f bs)
    | some ClassOutcome.unresolved => sortLoop cfg today rest b

/-- purger.py sort_holding_tank: clear the three lists, then sort the
de-duplicated pool.  An Except.error result models the exception
propagating out of the function. -/
def sort_holding_tank (cfg : HoldingConfig) (today : Date) (pool : List NcFile) :
    Except String Buckets :=
  sortLoop cfg today pool Buckets.empty

/-- The surrounding control flow of purge_efs for the holding tank: when
sort_holding_tank raises, the try block of purge_efs catches, logs and
publishes an alert, and none of archive_and_delete, upload_archives or
report_ops run in that invocation; a some result carries the buckets that
disposition then consumes. -/
def purge_efs_sort (cfg : HoldingConfig) (today : Date) (pool : List NcFile) :
    Option Buckets :=
  match sort_holding_tank cfg today pool with
  | Except.ok b => some b
  | Except.error _ => none

/-- Bucket membership of a file in a sort_holding_tank result, false when
the sort raised. -/
def inBucket (r : Except String Buckets) (k : Bucket) (f : NcFile) : Bool :=
  match r with
  | Except.ok b => decide (f ∈ b k)
  | Except.error _ => false

/-- The exception carried by a failed sort_holding_tank run, none on
success. -/
def sortErrored (r : Except String Buckets) : Option String :=
  match r with
  | Except.ok _ => none
  | Except.error e => some e

/-! ### archive_and_delete, delete action (purger.py lines 205 to 216) -/

/-- Kind of a filesystem entry, matching the is_file and is_dir checks. -/
inductive FKind
  | file
  | dir
deriving DecidableEq, Repr

/-- The filesystem entries that exist, with their kinds. -/
def FS : Type := List (String × FKind)

/-- Lookup of an existing entry; none when the path does not exist, in
which case both is_file and is_dir are false. -/
def FS.kindOf (fs : FS) (p : String) : Option FKind :=
  (List.find? (fun e => decide (e.1 = p)) fs).map (fun e => e.2)

/-- Remove a path from the filesystem (unlink or rmtree). -/
def FS.removePath (fs : FS) (p : String) : FS :=
  List.filter (fun e => decide (¬ e.1 = p)) fs

/-- Result of the delete action loop: ok carries the filesystem and the
deleted list at normal completion; raised carries the exception together
with the filesystem and the deleted list frozen at the point where the
unlink or rmtree call raised. -/
inductive DelResult
  | ok (fs : List (String × FKind)) (deleted : List String)
  | raised (msg : String) (fs : List (String × FKind)) (deleted : List String)
deriving DecidableEq, Repr

/-- The delete action branch of archive_and_delete: for each listed file,
unlink when a file exists at the path, rmtree when a directory exists,
then append str(file) to the deleted list unconditionally.  The failure
oracle says which removal calls raise an OSError; there is no per-entry
try block in the source, so a raise aborts the loop at that point. -/
def deleteActionLoop (removeFails : String → Bool) :
    FS → List String → List String → DelResult
  | fs, deleted, [] => DelResult.ok fs deleted
  | fs, deleted, f :: rest =>
    match fs.kindOf f with
    | some _ =>
      if removeFails f then DelResult.raised f fs deleted
      else deleteActionLoop removeFails (fs.removePath f) (deleted ++ [f]) rest
    | none => deleteActionLoop removeFails fs (deleted ++ [f]) rest

/-! ### archive_and_delete, archive action (purger.py lines 220 to 241) -/

/-- Observable events of the archive phase, in program order. -/
inductive Ev
  | zipOpen
  | memberWrite (f : String)
  | removeOrig (f : String)
  | zipClose
deriving DecidableEq, Repr

/-- The for loop inside the ZipFile with block: write each file into the
open zip, then immediately unlink or rmtree the original.  The oracle
says which member writes raise; a raise stops the loop there, so
originals processed earlier in the bucket are already gone.  The Bool is
false when the loop raised. -/
def zipLoop (writeFails : String → Bool) : List String → List Ev × Bool
  | [] => ([], true)
  | f :: rest =>
    if writeFails f then ([], false)
    else (Ev.memberWrite f :: Ev.removeOrig f :: (zipLoop writeFails rest).1,
      (zipLoop writeFails rest).2)

/-- Archival of one non-empty bucket: the zip is created and opened, the
member loop runs, and the with block closes the file handle on both the
normal and the exceptional path (the zip is complete only when the Bool
is true). -/
def archiveBucket (writeFails : String → Bool) (files : List String) :
    List Ev × Bool :=
  (Ev.zipOpen :: (zipLoop writeFails files).1 ++ [Ev.zipClose],
    (zipLoop writeFails files).2)

/-- The archive phase over the buckets in order: an empty bucket produces
no zip at all; an exception from one bucket propagates out of
archive_and_delete, so no later bucket is processed. -/
def archiveBuckets (writeFails : String → Bool) : List (List String) → List Ev × Bool
  | [] => ([], true)
  | bucket :: rest =>
    if bucket.isEmpty then archiveBuckets writeFails rest
    else if (archiveBucket writeFails bucket).2 then
      ((archiveBucket writeFails bucket).1 ++ (archiveBuckets writeFails rest).1,
        (archiveBuckets writeFails rest).2)
    else ((archiveBucket writeFails bucket).1, false)

/-- True when the event is the close of the zip file. -/
def Ev.isClose : Ev → Bool
  | Ev.zipClose => true
  | _ => false

/-- True when the event removes an original entry. -/
def Ev.isRemove : Ev → Bool
  | Ev.removeOrig _ => true
  | _ => false

/-- Holds when no original is removed before the first close of the
bundle, the formal reading of: never delete an original before the bundle
is sealed. -/
def noRemoveBeforeClose (tr : List Ev) : Bool :=
  (tr.takeWhile (fun e => ¬ e.isClose = true)).all (fun e => ¬ e.isRemove = true)

/-- Scans a trace maintaining the set of members already written into the
bundle; holds when every removal targets a file whose own member write
already happened earlier in the trace. -/
def removesOnlyWritten (written : List String) : List Ev → Bool
  | [] => true
  | Ev.memberWrite f :: rest => removesOnlyWritten (f :: written) rest
  | Ev.removeOrig f :: rest => decide (f ∈ written) && removesOnlyWritten written rest
  | _ :: rest => removesOnlyWritten written rest

/-! ### Catalog reconciliation (purger.py purge_s3 path) -/

/-- purger.py parse_s3_response for a single key: take the last slash
separated segment; skip it entirely when it contains .nc.md5 (checksum
sidecars are never candidates); otherwise, when it contains .nc, the
candidate identifier is the part before the first .nc occurrence. -/
def parse_s3_key (key : String) : Option String :=
  let l2p := (pySplit key "/").getLastD ""
  if strHas l2p ".nc.md5" = true then none
  else if strHas l2p ".nc" = true then some ((pySplit l2p ".nc").headD "")
  else none

/-- purger.py parse_s3_response over the listed keys of one page. -/
def parse_s3_response (keys : List String) : List String :=
  keys.filterMap parse_s3_key

/-- The body of the CMR search response for one candidate, as the source
distinguishes it: a body with an errors key; a body with a hits count and
the items array, where each item carries the list of names found under
ArchiveAndDistributionInformation; a body with neither key (silently
skipped); or a request or decode failure that raises an unexpected
exception. -/
inductive CmrResponse
  | errResp
  | okResp (hits : Nat) (items : List (List String))
  | badResp
  | noKeys
deriving DecidableEq, Repr

/-- The observable state threaded through query_cmr_and_delete: the
del_dict being built, the CMR queries issued in order, and the S3 keys
deleted from the staging bucket in order. -/
structure ReconState where
  delDict : List (String × List String)
  queries : List (String × String)
  s3deleted : List String
deriving DecidableEq, Repr

/-- del_dict[dataset].append(l2p): append to the list of every entry
keyed by the dataset. -/
def addDel (dd : List (String × List String)) (dataset l2p : String) :
    List (String × List String) :=
  dd.map (fun e => if e.1 = dataset then (e.1, e.2 ++ [l2p]) else e)

/-- The recorded deletions of a dataset in a del_dict (the value of the
first entry with that key). -/
def lookupDel : List (String × List String) → String → List String
  | [], _ => []
  | e :: dd, dataset => if e.1 = dataset then e.2 else lookupDel dd dataset

/-- Whether a del_dict carries an entry for the dataset. -/
def hasKey : List (String × List String) → String → Bool
  | [], _ => false
  | e :: dd, dataset => decide (e.1 = dataset) || hasKey dd dataset

/-- purger.py delete_l2p: delete the data object, then its checksum
sidecar.  The oracle says which delete_object calls raise a ClientError;
the Bool is false when one raised (the error is re-raised by the source,
so it propagates). -/
def delete_l2p (s3fail : String → Bool) (dataset l2p : String)
    (dels : List String) : List String × Bool :=
  let k1 := dataset ++ "/" ++ l2p ++ ".nc"
  if s3fail k1 then (dels, false)
  else
    let k2 := dataset ++ "/" ++ l2p ++ ".nc.md5"
    if s3fail (k2) then (dels ++ [k1], false)
    else (dels ++ [k1, k2], true)

/-- The inner loop over files = coll.items[0].umm.DataGranule.
ArchiveAndDistributionInformation: on every name equal to l2p.nc the
source first records l2p in del_dict and then deletes the pair.  The Bool
is false when a delete raised a ClientError. -/
def processFiles (s3fail : String → Bool) (dataset l2p : String) :
    List String → ReconState → ReconState × Bool
  | [], st => (st, true)
  | nm :: rest, st =>
    if nm = l2p ++ ".nc" then
      let st1 : ReconState := { st with delDict := addDel st.delDict dataset l2p }
      let r := delete_l2p s3fail dataset l2p st1.s3deleted
      let st2 : ReconState := { st1 with s3deleted := r.1 }
      if r.2 then processFiles s3fail dataset l2p rest st2 else (st2, false)
    else processFiles s3fail dataset l2p rest st

/-- Result of processing one candidate: go on to the next candidate;
return del_dict immediately (the generic except branch of the source); or
propagate a ClientError out of query_cmr_and_delete. -/
inductive StepResult
  | next (st : ReconState)
  | earlyRet (st : ReconState)
  | fatalErr (st : ReconState)
deriving DecidableEq, Repr

/-- True when the candidate step falls through to the next candidate. -/
def StepResult.isNext : StepResult → Bool
  | StepResult.next _ => true
  | _ => false

/-- The state carried by a candidate step result. -/
def stepState : StepResult → ReconState
  | StepResult.next st => st
  | StepResult.earlyRet st => st
  | StepResult.fatalErr st => st

/-- The try body for one candidate of query_cmr_and_delete: issue the
search (recorded in queries), then branch on the response shape.  A body
with hits greater than zero but an empty items array models the
IndexError of coll.items[0], which the generic except turns into an early
return, like any other unexpected exception. -/
def processCandidate (oracle : String → String → CmrResponse)
    (s3fail : String → Bool) (dataset l2p : String) (st : ReconState) :
    StepResult :=
  let st1 : ReconState := { st with queries := st.queries ++ [(dataset, l2p)] }
  match oracle dataset l2p with
  | CmrResponse.errResp => StepResult.next st1
  | CmrResponse.noKeys => StepResult.next st1
  | CmrResponse.badResp => StepResult.earlyRet st1
  | CmrResponse.okResp hits items =>
    if hits = 0 then StepResult.next st1
    else
      match items with
      | [] => StepResult.earlyRet st1
      | files :: _ =>
        let r := processFiles s3fail dataset l2p files st1
        if r.2 then StepResult.next r.1 else StepResult.fatalErr r.1

/-- The inner for loop of query_cmr_and_delete over the candidates of one
dataset. -/
def processCandidates (oracle : String → String → CmrResponse)
    (s3fail : String → Bool) (dataset : String) :
    List String → ReconState → StepResult
  | [], st => StepResult.next st
  | l2p :: rest, st =>
    match processCandidate oracle s3fail dataset l2p st with
    | StepResult.next st1 => processCandidates oracle s3fail dataset rest st1
    | r => r

/-- Result of query_cmr_and_delete: ok carries the returned del_dict and
the accumulated side effects (this covers both normal completion and the
early return of the generic except branch, which are indistinguishable to
the caller); fatal models a ClientError propagating to purge_s3. -/
inductive ReconResult
  | ok (st : ReconState)
  | fatal (st : ReconState)
deriving DecidableEq, Repr

/-- purger.py query_cmr_and_delete over the datasets of s3_dict: each
dataset first gets an empty del_dict entry, then its candidates are
processed; the early return of the generic except branch skips the
remaining candidates of the dataset and every later dataset. -/
def query_cmr_and_delete (oracle : String → String → CmrResponse)
    (s3fail : String → Bool) :
    List (String × List String) → ReconState → ReconResult
  | [], st => ReconResult.ok st
  | (dataset, l2ps) :: rest, st =>
    let st1 : ReconState := { st with delDict := st.delDict ++ [(dataset, [])] }
    match processCandidates oracle s3fail dataset l2ps st1 with
    | StepResult.next st2 => query_cmr_and_delete oracle s3fail rest st2
    | StepResult.earlyRet st2 => ReconResult.ok st2
    | StepResult.fatalErr st2 => ReconResult.fatal st2

/-! ### publish_event (purger.py lines 436 to 465) -/

/-- The substring used to select the alert topic. -/
def TOPIC_STRING : String := "batch-job-failure"

/-- Observable outcome of publish_event: a message published to the
selected topic ARN; a sys.exit(1) call terminating the process; or the
NameError raised at the publish call when no listed topic contains the
marker substring, so topic_arn was never bound. -/
inductive SnsOutcome
  | published (topicArn : String)
  | exited (code : Nat)
  | nameError
deriving DecidableEq, Repr

/-- The topic selection loop: the last listed ARN containing TOPIC_STRING
wins; none when no ARN matches. -/
def findTopic (topics : List String) : Option String :=
  topics.foldl (fun acc t => if strHas t TOPIC_STRING = true then some t else acc) none

/-- purger.py publish_event: a ClientError from list_topics is logged and
then sys.exit(1) runs; a ClientError from publish is logged and then
sys.exit(1) runs; otherwise the message is published.  The first argument
is none when list_topics raises, some topics on success; the oracle says
whether publishing to a given ARN raises. -/
def publish_event (listTopicsResult : Option (List String))
    (publishFails : String → Bool) : SnsOutcome :=
  match listTopicsResult with
  | none => SnsOutcome.exited 1
  | some topics =>
    match findTopic topics with
    | none => SnsOutcome.nameError
    | some arn =>
      if publishFails arn then SnsOutcome.exited 1
      else SnsOutcome.published arn

/-! ## Lemmas about the holding tank classifier -/

theorem mem_bucketsAdd (b0 : Buckets) (g f : NcFile) (bs : List Bucket) (k : Bucket) :
    f ∈ bucketsAdd b0 g bs k ↔ f ∈ b0 k ∨ (f = g ∧ k ∈ bs) := by
  unfold bucketsAdd
  by_cases hk : k ∈ bs
  · simp [hk]
  · simp [hk]

theorem mem_sortLoop (cfg : HoldingConfig) (today : Date) (pool : List NcFile)
    (k : Bucket) (f : NcFile) :
    ∀ (b0 b : Buckets), sortLoop cfg today pool b0 = Except.ok b →
    (f ∈ b k ↔ f ∈ b0 k ∨ (f ∈ pool ∧ ∃ bs,
      classifyEntry cfg today f = some (ClassOutcome.sorted bs) ∧ k ∈ bs)) := by
  induction pool with
  | nil =>
    intro b0 b h
    simp only [sortLoop] at h
    cases h
    simp
  | cons g rest ih =>
    intro b0 b h
    simp only [sortLoop] at h
    cases hg : classifyEntry cfg today g with
    | none => rw [hg] at h; cases h
    | some o =>
      cases o with
      | sorted bs =>
        rw [hg] at h
        rw [ih _ _ h, mem_bucketsAdd]
        constructor
        · rintro ((hb | ⟨rfl, hk⟩) | ⟨hr, P⟩)
          · exact Or.inl hb
          · exact Or.inr ⟨List.mem_cons_self _ _, ⟨bs, hg, hk⟩⟩
          · exact Or.inr ⟨List.mem_cons_of_mem _ hr, P⟩
        · rintro (hb | ⟨hm, ⟨bs2, hc, hk⟩⟩)
          · exact Or.inl (Or.inl hb)
          · rcases List.mem_cons.mp hm with rfl | hr
            · rw [hg] at hc
              simp only [Option.some.injEq, ClassOutcome.sorted.injEq] at hc
              subst hc
              exact Or.inl (Or.inr ⟨rfl, hk⟩)
            · exact Or.inr ⟨hr, ⟨bs2, hc, hk⟩⟩
      | unresolved =>
        rw [hg] at h
        rw [ih _ _ h]
        constructor
        · rintro (hb | ⟨hr, P⟩)
          · exact Or.inl hb
          · exact Or.inr ⟨List.mem_cons_of_mem _ hr, P⟩
        · rintro (hb | ⟨hm, ⟨bs2, hc, hk⟩⟩)
          · exact Or.inl hb
          · rcases List.mem_cons.mp hm with rfl | hr
            · rw [hg] at hc; cases hc
            · exact Or.inr ⟨hr, ⟨bs2, hc, hk⟩⟩

theorem mem_sort_holding_tank (cfg : HoldingConfig) (today : Date)
    (pool : List NcFile) (b : Buckets) (k : Bucket) (f : NcFile)
    (h : sort_holding_tank cfg today pool = Except.ok b) :
    f ∈ b k ↔ f ∈ pool ∧ ∃ bs,
      classifyEntry cfg today f = some (ClassOutcome.sorted bs) ∧ k ∈ bs := by
  have := mem_sortLoop cfg today pool k f Buckets.empty b h
  rw [this]
  simp [Buckets.empty]

theorem sortLoop_ok_classified (cfg : HoldingConfig) (today : Date)
    (pool : List NcFile) (f : NcFile) (hf : f ∈ pool) :
    ∀ (b0 b : Buckets), sortLoop cfg today pool b0 = Except.ok b →
    classifyEntry cfg today f ≠ none := by
  induction pool with
  | nil => cases hf
  | cons g rest ih =>
    intro b0 b h
    simp only [sortLoop] at h
    cases hg : classifyEntry cfg today g with
    | none => rw [hg] at h; cases h
    | some o =>
      rcases List.mem_cons.mp hf with rfl | hr
      · rw [hg]; simp
      · cases o with
        | sorted bs => rw [hg] at h; exact ih hr _ _ h
        | unresolved => rw [hg] at h; exact ih hr _ _ h

theorem sort_refined_holding_len (cfg : HoldingConfig) (f : NcFile)
    (h : ¬(strHas f.name "MODIS" = true ∧ strHas f.name "VIIRS" = true)) :
    (sort_refined_holding cfg f).length ≤ 1 := by
  unfold sort_refined_holding
  split
  · next h1 =>
    split
    · next h2 => exact absurd ⟨h1.1, h2.1⟩ h
    · simp
  · split <;> simp

theorem classifyEntry_sorted_len (cfg : HoldingConfig) (today : Date)
    (f : NcFile) (bs : List Bucket)
    (h : ¬(strHas f.name "MODIS" = true ∧ strHas f.name "VIIRS" = true))
    (hc : classifyEntry cfg today f = some (ClassOutcome.sorted bs)) :
    bs.length ≤ 1 := by
  unfold classifyEntry at hc
  cases hp : nameTimestamp f.name with
  | none => rw [hp] at hc; cases hc
  | some d =>
    rw [hp] at hc
    simp only [Option.some.injEq] at hc
    split at hc
    · unfold check_processing_type at hc
      split at hc
      · cases hc; simp
      · cases hc; exact sort_refined_holding_len cfg f h
    · split at hc
      · cases hc; exact sort_refined_holding_len cfg f h
      · split at hc
        · cases hc; simp
        · cases hc

theorem refinedModis_mem_sort_refined (cfg : HoldingConfig) (f : NcFile) :
    Bucket.refinedModis ∈ sort_refined_holding cfg f ↔
      strHas f.name "MODIS" = true ∧ 3600 * cfg.modisThreshold ≤ f.ageSeconds := by
  unfold sort_refined_holding
  split <;> split <;> simp_all

theorem refinedViirs_mem_sort_refined (cfg : HoldingConfig) (f : NcFile) :
    Bucket.refinedViirs ∈ sort_refined_holding cfg f ↔
      strHas f.name "VIIRS" = true ∧ 3600 * cfg.viirsThreshold ≤ f.ageSeconds := by
  unfold sort_refined_holding
  split <;> split <;> simp_all

theorem quicklook_not_mem_sort_refined (cfg : HoldingConfig) (f : NcFile) :
    Bucket.quicklook ∉ sort_refined_holding cfg f := by
  unfold sort_refined_holding
  split <;> split <;> simp_all

/-! ## Claim C1 -/

/-- C1, as stated, is false on the code: the two refined checks of
sort_refined_holding are independent if statements, so a holding tank
entry whose name contains both the MODIS and the VIIRS marker and whose
age exceeds both thresholds is appended to both refined buckets by
sort_holding_tank. -/
theorem claim_C1_counterexample :
    inBucket (sort_holding_tank ⟨100, 100⟩ ⟨2026, 10, 12, 0, 0, 0⟩
        [⟨"MODIS_VIIRS.20250901T000000.nc", 3600 * 1000, "SCI"⟩])
      Bucket.refinedModis ⟨"MODIS_VIIRS.20250901T000000.nc", 3600 * 1000, "SCI"⟩ = true
  ∧ inBucket (sort_holding_tank ⟨100, 100⟩ ⟨2026, 10, 12, 0, 0, 0⟩
        [⟨"MODIS_VIIRS.20250901T000000.nc", 3600 * 1000, "SCI"⟩])
      Bucket.refinedViirs ⟨"MODIS_VIIRS.20250901T000000.nc", 3600 * 1000, "SCI"⟩ = true
  ∧ classifyEntry ⟨100, 100⟩ ⟨2026, 10, 12, 0, 0, 0⟩
      ⟨"MODIS_VIIRS.20250901T000000.nc", 3600 * 1000, "SCI"⟩ =
      some (ClassOutcome.sorted [Bucket.refinedModis, Bucket.refinedViirs]) := by
  refine ⟨by decide, by decide, by decide⟩

/-- C1 (amended): for every pool on which sort_holding_tank succeeds,
an entry whose name does not contain both family markers lies in at most
one of the three buckets, and an entry classified unresolved (the final
log-and-exclude branch) lies in no bucket, hence is never appended to a
file list and never deleted. -/
theorem claim_C1_amended (cfg : HoldingConfig) (today : Date)
    (pool : List NcFile) (b : Buckets) (f : NcFile)
    (hok : sort_holding_tank cfg today pool = Except.ok b) :
    (¬(strHas f.name "MODIS" = true ∧ strHas f.name "VIIRS" = true) →
      (if f ∈ b Bucket.quicklook then 1 else 0) +
      (if f ∈ b Bucket.refinedModis then 1 else 0) +
      (if f ∈ b Bucket.refinedViirs then 1 else 0) ≤ 1)
  ∧ (classifyEntry cfg today f = some ClassOutcome.unresolved →
      ∀ k, f ∉ b k) := by
  have hmem : ∀ k, f ∈ b k ↔ f ∈ pool ∧ ∃ bs,
      classifyEntry cfg today f = some (ClassOutcome.sorted bs) ∧ k ∈ bs :=
    fun k => mem_sort_holding_tank cfg today pool b k f hok
  constructor
  · intro hnd
    cases hc : classifyEntry cfg today f with
    | none =>
      have hno : ∀ k, f ∉ b k := by
        intro k hk
        rw [hmem k] at hk
        obtain ⟨_, bs, hbs, _⟩ := hk
        rw [hc] at hbs; cases hbs
      simp [hno Bucket.quicklook, hno Bucket.refinedModis, hno Bucket.refinedViirs]
    | some o =>
      cases o with
      | unresolved =>
        have hno : ∀ k, f ∉ b k := by
          intro k hk
          rw [hmem k] at hk
          obtain ⟨_, bs, hbs, _⟩ := hk
          rw [hc] at hbs; cases hbs
        simp [hno Bucket.quicklook, hno Bucket.refinedModis, hno Bucket.refinedViirs]
      | sorted bs =>
        have hlen := classifyEntry_sorted_len cfg today f bs hnd hc
        have hmem2 : ∀ k, f ∈ b k ↔ f ∈ pool ∧ k ∈ bs := by
          intro k
          rw [hmem k]
          constructor
          · rintro ⟨hp, bs2, hc2, hk⟩
            rw [hc] at hc2
            simp only [Option.some.injEq, ClassOutcome.sorted.injEq] at hc2
            subst hc2
            exact ⟨hp, hk⟩
          · rintro ⟨hp, hk⟩
            exact ⟨hp, bs, hc, hk⟩
        match bs, hlen with
        | [], _ => simp [hmem2]
        | [x], _ =>
          by_cases hp : f ∈ pool
          · cases x <;> simp [hmem2, hp]
          · simp [hmem2, hp]
  · intro hu k hk
    rw [hmem k] at hk
    obtain ⟨_, bs, hbs, _⟩ := hk
    rw [hu] at hbs; cases hbs

/-- C1 witness: the amended statement applied to a concrete run of
sort_holding_tank on one current-month quicklook file. -/
theorem claim_C1_witness :
    (¬(strHas "x.20261005T000000.nc" "MODIS" = true ∧
        strHas "x.20261005T000000.nc" "VIIRS" = true) →
      (if (⟨"x.20261005T000000.nc", 10, "p"⟩ : NcFile) ∈
          bucketsAdd Buckets.empty ⟨"x.20261005T000000.nc", 10, "p"⟩
            [Bucket.quicklook] Bucket.quicklook then 1 else 0) +
      (if (⟨"x.20261005T000000.nc", 10, "p"⟩ : NcFile) ∈
          bucketsAdd Buckets.empty ⟨"x.20261005T000000.nc", 10, "p"⟩
            [Bucket.quicklook] Bucket.refinedModis then 1 else 0) +
      (if (⟨"x.20261005T000000.nc", 10, "p"⟩ : NcFile) ∈
          bucketsAdd Buckets.empty ⟨"x.20261005T000000.nc", 10, "p"⟩
            [Bucket.quicklook] Bucket.refinedViirs then 1 else 0) ≤ 1)
  ∧ (classifyEntry ⟨100, 100⟩ ⟨2026, 10, 12, 0, 0, 0⟩
        ⟨"x.20261005T000000.nc", 10, "p"⟩ = some ClassOutcome.unresolved →
      ∀ k, (⟨"x.20261005T000000.nc", 10, "p"⟩ : NcFile) ∉
        bucketsAdd Buckets.empty ⟨"x.20261005T000000.nc", 10, "p"⟩
          [Bucket.quicklook] k) :=
  claim_C1_amended ⟨100, 100⟩ ⟨2026, 10, 12, 0, 0, 0⟩
    [⟨"x.20261005T000000.nc", 10, "p"⟩]
    (bucketsAdd Buckets.empty ⟨"x.20261005T000000.nc", 10, "p"⟩ [Bucket.quicklook])
    ⟨"x.20261005T000000.nc", 10, "p"⟩ rfl

/-! ## Claim C2 -/

/-- C2, as stated, is false on the code: there is no MalformedNameError
and no per-entry recovery.  The strptime exception for an unparseable
name propagates out of sort_holding_tank, so the EFS run does not
continue: purge_efs catches it and skips the whole disposition, even
though the well-formed entry of the same pool would have been
classified had it been alone. -/
theorem claim_C2_counterexample :
    sortErrored (sort_holding_tank ⟨100, 100⟩ ⟨2026, 10, 12, 0, 0, 0⟩
        [⟨"x.20261005T000000.nc", 10, "p"⟩, ⟨"noTimestampHere.nc", 10, "p"⟩]) =
      some "noTimestampHere.nc"
  ∧ (purge_efs_sort ⟨100, 100⟩ ⟨2026, 10, 12, 0, 0, 0⟩
        [⟨"x.20261005T000000.nc", 10, "p"⟩, ⟨"noTimestampHere.nc", 10, "p"⟩]).isNone = true
  ∧ inBucket (sort_holding_tank ⟨100, 100⟩ ⟨2026, 10, 12, 0, 0, 0⟩
        [⟨"x.20261005T000000.nc", 10, "p"⟩]) Bucket.quicklook
      ⟨"x.20261005T000000.nc", 10, "p"⟩ = true := by
  refine ⟨by decide, by decide, by decide⟩

/-- C2 (amended): a holding tank pool entry without a parseable embedded
timestamp token makes the classification raise, which aborts the whole
EFS purge for that run (caught at purge_efs, logged, alert published):
no buckets are produced, nothing is disposed, and every entry of the
pool, the malformed one included, is left on disk for the next run. -/
theorem claim_C2_amended (cfg : HoldingConfig) (today : Date)
    (pool : List NcFile) (f : NcFile) (hf : f ∈ pool)
    (hbad : nameTimestamp f.name = none) :
    purge_efs_sort cfg today pool = none := by
  unfold purge_efs_sort
  cases h : sort_holding_tank cfg today pool with
  | error e => rfl
  | ok b =>
    have hcl := sortLoop_ok_classified cfg today pool f hf Buckets.empty b h
    have hcn : classifyEntry cfg today f = none := by
      unfold classifyEntry; rw [hbad]
    exact absurd hcn hcl

/-- C2 witness: the amended statement applied to a concrete pool with a
malformed name. -/
theorem claim_C2_witness :
    purge_efs_sort ⟨100, 100⟩ ⟨2026, 10, 12, 0, 0, 0⟩
      [⟨"x.20261005T000000.nc", 10, "p"⟩, ⟨"noTimestampHere.nc", 10, "p"⟩] = none :=
  claim_C2_amended ⟨100, 100⟩ ⟨2026, 10, 12, 0, 0, 0⟩
    [⟨"x.20261005T000000.nc", 10, "p"⟩, ⟨"noTimestampHere.nc", 10, "p"⟩]
    ⟨"noTimestampHere.nc", 10, "p"⟩ (by decide) (by decide)

/-! ## Claim C4 -/

/-- C4: a holding tank entry whose parsed timestamp is in the current
month with day 1 goes through check_processing_type: with a
near-real-time marker in the product name it is appended to the quicklook
bucket, otherwise it goes through sort_refined_holding, which compares
the age of this entry against the matching family threshold; the refined
handling never yields the quicklook bucket. -/
theorem claim_C4 (cfg : HoldingConfig) (today : Date) (f : NcFile) (d : Date)
    (hp : nameTimestamp f.name = some d) (hm : d.month = today.month)
    (hd : d.day = 1) :
    classifyEntry cfg today f = some (ClassOutcome.sorted
      (if strHas f.productName "NRT" = true then [Bucket.quicklook]
       else sort_refined_holding cfg f))
  ∧ (Bucket.refinedModis ∈ sort_refined_holding cfg f ↔
      strHas f.name "MODIS" = true ∧ 3600 * cfg.modisThreshold ≤ f.ageSeconds)
  ∧ (Bucket.refinedViirs ∈ sort_refined_holding cfg f ↔
      strHas f.name "VIIRS" = true ∧ 3600 * cfg.viirsThreshold ≤ f.ageSeconds)
  ∧ Bucket.quicklook ∉ sort_refined_holding cfg f := by
  refine ⟨?_, refinedModis_mem_sort_refined cfg f,
    refinedViirs_mem_sort_refined cfg f, quicklook_not_mem_sort_refined cfg f⟩
  have hcond : d.month = today.month ∧ d.day = 1 := ⟨hm, hd⟩
  simp only [classifyEntry, hp]
  rw [if_pos hcond]
  rfl

/-- C4 witness: the statement applied to a first-of-current-month MODIS
file without the near-real-time marker. -/
theorem claim_C4_witness :
    classifyEntry ⟨100, 100⟩ ⟨2026, 10, 12, 0, 0, 0⟩
      ⟨"f.20261001T000000.MODIS.nc", 3600 * 1000, "SCI"⟩ =
      some (ClassOutcome.sorted
        (if strHas "SCI" "NRT" = true then [Bucket.quicklook]
         else sort_refined_holding ⟨100, 100⟩
           ⟨"f.20261001T000000.MODIS.nc", 3600 * 1000, "SCI"⟩))
  ∧ (Bucket.refinedModis ∈ sort_refined_holding ⟨100, 100⟩
        ⟨"f.20261001T000000.MODIS.nc", 3600 * 1000, "SCI"⟩ ↔
      strHas "f.20261001T000000.MODIS.nc" "MODIS" = true ∧
        3600 * (100 : Int) ≤ 3600 * 1000)
  ∧ (Bucket.refinedViirs ∈ sort_refined_holding ⟨100, 100⟩
        ⟨"f.20261001T000000.MODIS.nc", 3600 * 1000, "SCI"⟩ ↔
      strHas "f.20261001T000000.MODIS.nc" "VIIRS" = true ∧
        3600 * (100 : Int) ≤ 3600 * 1000)
  ∧ Bucket.quicklook ∉ sort_refined_holding ⟨100, 100⟩
      ⟨"f.20261001T000000.MODIS.nc", 3600 * 1000, "SCI"⟩ :=
  claim_C4 ⟨100, 100⟩ ⟨2026, 10, 12, 0, 0, 0⟩
    ⟨"f.20261001T000000.MODIS.nc", 3600 * 1000, "SCI"⟩ ⟨2026, 10, 1, 0, 0, 0⟩
    (by decide) (by decide) (by decide)

/-! ## Claim C8 -/

/-- C8, as stated, is false on the code: the final log-and-exclude branch
of sort_holding_tank fires on the month number alone.  A file from
December of the previous year (a past date) falls into it, while a file
from January of the next year (a future date) is routed to refined
handling instead. -/
theorem claim_C8_counterexample :
    classifyEntry ⟨100, 100⟩ ⟨2026, 10, 12, 0, 0, 0⟩
      ⟨"x.20251205T000000.nc", 999999, "p"⟩ = some ClassOutcome.unresolved
  ∧ nameTimestamp "x.20251205T000000.nc" = some ⟨2025, 12, 5, 0, 0, 0⟩
  ∧ Date.before ⟨2025, 12, 5, 0, 0, 0⟩ ⟨2026, 10, 12, 0, 0, 0⟩ = true
  ∧ classifyEntry ⟨100, 100⟩ ⟨2026, 10, 12, 0, 0, 0⟩
      ⟨"y.20270105T000000.MODIS.nc", 999999, "p"⟩ =
      some (ClassOutcome.sorted [Bucket.refinedModis])
  ∧ nameTimestamp "y.20270105T000000.MODIS.nc" = some ⟨2027, 1, 5, 0, 0, 0⟩
  ∧ Date.before ⟨2026, 10, 12, 0, 0, 0⟩ ⟨2027, 1, 5, 0, 0, 0⟩ = true := by
  refine ⟨by decide, by decide, by decide, by decide, by decide, by decide⟩

/-- C8 (amended): for an entry with a parseable timestamp, the
log-and-exclude branch fires exactly when the parsed month number
strictly exceeds the current month number; the year is ignored by the
comparison, so this is not equivalent to the parsed date being in the
future.  Entries of that branch are in no bucket of any successful sort
and are therefore never deleted. -/
theorem claim_C8_amended (cfg : HoldingConfig) (today : Date) (f : NcFile)
    (d : Date) (hp : nameTimestamp f.name = some d) :
    (classifyEntry cfg today f = some ClassOutcome.unresolved ↔
      today.month < d.month)
  ∧ ∀ (pool : List NcFile) (b : Buckets),
      sort_holding_tank cfg today pool = Except.ok b →
      classifyEntry cfg today f = some ClassOutcome.unresolved →
      ∀ k, f ∉ b k := by
  constructor
  · simp only [classifyEntry, hp]
    split_ifs with h1 h2 h3
    · simp only [Option.some.injEq]
      constructor
      · intro h; cases h
      · intro h; omega
    · simp only [Option.some.injEq]
      constructor
      · intro h; cases h
      · intro h; omega
    · simp only [Option.some.injEq]
      constructor
      · intro h; cases h
      · intro h; omega
    · simp only [Option.some.injEq, true_iff]
      omega
  · intro pool b hok hu k hk
    rw [mem_sort_holding_tank cfg today pool b k f hok] at hk
    obtain ⟨_, bs, hbs, _⟩ := hk
    rw [hu] at hbs; cases hbs

/-- C8 witness: the amended statement applied to the previous-year
December file. -/
theorem claim_C8_witness :
    (classifyEntry ⟨100, 100⟩ ⟨2026, 10, 12, 0, 0, 0⟩
        ⟨"x.20251205T000000.nc", 999999, "p"⟩ = some ClassOutcome.unresolved ↔
      10 < 12)
  ∧ ∀ (pool : List NcFile) (b : Buckets),
      sort_holding_tank ⟨100, 100⟩ ⟨2026, 10, 12, 0, 0, 0⟩ pool = Except.ok b →
      classifyEntry ⟨100, 100⟩ ⟨2026, 10, 12, 0, 0, 0⟩
        ⟨"x.20251205T000000.nc", 999999, "p"⟩ = some ClassOutcome.unresolved →
      ∀ k, (⟨"x.20251205T000000.nc", 999999, "p"⟩ : NcFile) ∉ b k :=
  claim_C8_amended ⟨100, 100⟩ ⟨2026, 10, 12, 0, 0, 0⟩
    ⟨"x.20251205T000000.nc", 999999, "p"⟩ ⟨2025, 12, 5, 0, 0, 0⟩ (by decide)

/-! ## Lemmas about the delete and archive phases -/

theorem deleteActionLoop_append (removeFails : String → Bool) :
    ∀ (xs ys : List String) (fs : FS) (deleted : List String),
    deleteActionLoop removeFails fs deleted (xs ++ ys) =
      match deleteActionLoop removeFails fs deleted xs with
      | DelResult.ok fs2 d2 => deleteActionLoop removeFails fs2 d2 ys
      | DelResult.raised e fs2 d2 => DelResult.raised e fs2 d2 := by
  intro xs
  induction xs with
  | nil => intro ys fs deleted; rfl
  | cons f xs ih =>
    intro ys fs deleted
    simp only [List.cons_append, deleteActionLoop]
    cases h : fs.kindOf f with
    | some k =>
      by_cases hf : removeFails f = true
      · simp [hf]
      · simp only [hf, if_false, Bool.false_eq_true]
        exact ih ys (fs.removePath f) (deleted ++ [f])
    | none => exact ih ys fs (deleted ++ [f])

theorem zipLoop_removesOnlyWritten (writeFails : String → Bool) :
    ∀ (files : List String) (written : List String),
    removesOnlyWritten written (zipLoop writeFails files).1 = true := by
  intro files
  induction files with
  | nil => intro written; rfl
  | cons f rest ih =>
    intro written
    simp only [zipLoop]
    by_cases hf : writeFails f = true
    · simp [hf, removesOnlyWritten]
    · rw [if_neg (by simp [hf])]
      simp only [removesOnlyWritten]
      rw [decide_eq_true (List.mem_cons_self f written)]
      simp only [Bool.true_and]
      exact ih (f :: written)

theorem removesOnlyWritten_append (t2 : List Ev)
    (h2 : ∀ w2, removesOnlyWritten w2 t2 = true) :
    ∀ (t1 : List Ev) (w : List String),
    removesOnlyWritten w t1 = true → removesOnlyWritten w (t1 ++ t2) = true := by
  intro t1
  induction t1 with
  | nil => intro w _; exact h2 w
  | cons e rest ih =>
    intro w h1
    cases e with
    | memberWrite f =>
      simp only [List.cons_append, removesOnlyWritten] at h1 ⊢
      exact ih _ h1
    | removeOrig f =>
      simp only [List.cons_append, removesOnlyWritten, Bool.and_eq_true] at h1 ⊢
      exact ⟨h1.1, ih _ h1.2⟩
    | zipOpen =>
      simp only [List.cons_append, removesOnlyWritten] at h1 ⊢
      exact ih _ h1
    | zipClose =>
      simp only [List.cons_append, removesOnlyWritten] at h1 ⊢
      exact ih _ h1

theorem archiveBucket_removesOnlyWritten (writeFails : String → Bool)
    (files : List String) (written : List String) :
    removesOnlyWritten written (archiveBucket writeFails files).1 = true := by
  simp only [archiveBucket, removesOnlyWritten]
  exact removesOnlyWritten_append [Ev.zipClose] (fun w2 => rfl) _ _
    (zipLoop_removesOnlyWritten writeFails files written)

theorem archiveBuckets_removesOnlyWritten (writeFails : String → Bool) :
    ∀ (buckets : List (List String)) (written : List String),
    removesOnlyWritten written (archiveBuckets writeFails buckets).1 = true := by
  intro buckets
  induction buckets with
  | nil => intro written; rfl
  | cons bucket rest ih =>
    intro written
    simp only [archiveBuckets]
    by_cases he : bucket.isEmpty = true
    · rw [if_pos he]; exact ih written
    · rw [if_neg (by simp [he])]
      by_cases hz : (archiveBucket writeFails bucket).2 = true
      · rw [if_pos hz]
        exact removesOnlyWritten_append _ (fun w2 => ih w2) _ _
          (archiveBucket_removesOnlyWritten writeFails bucket written)
      · rw [if_neg (by simp [hz])]
        exact archiveBucket_removesOnlyWritten writeFails bucket written

/-! ## Claim C3 -/

/-- C3, as stated, is false on the code: originals are removed inside the
ZipFile with block, before the bundle is closed.  With a two-file bucket
where the second member write fails, the bundle is not sealed yet the
first original has already been removed; even on the fully successful
path removals precede the close; and after a failing bucket no later
bucket is processed, so the run does not continue to the next bucket. -/
theorem claim_C3_counterexample :
    archiveBucket (fun s => decide (s = "b")) ["a", "b"] =
      ([Ev.zipOpen, Ev.memberWrite "a", Ev.removeOrig "a", Ev.zipClose], false)
  ∧ noRemoveBeforeClose (archiveBucket (fun _ => false) ["a", "b"]).1 = false
  ∧ (archiveBucket (fun _ => false) ["a", "b"]).2 = true
  ∧ (archiveBuckets (fun s => decide (s = "b")) [["a", "b"], ["c"]]).1 =
      [Ev.zipOpen, Ev.memberWrite "a", Ev.removeOrig "a", Ev.zipClose] := by
  refine ⟨by decide, by decide, by decide, by decide⟩

/-- C3 (amended): what the archive phase does guarantee is that an
original is removed only after its own member write into the open bundle
has returned: every removeOrig event in any archive trace is preceded by
the memberWrite event of the same file.  A bucket whose zip raised stops
the whole archive phase: no later bucket produces any event. -/
theorem claim_C3_amended (writeFails : String → Bool)
    (buckets : List (List String)) :
    removesOnlyWritten [] (archiveBuckets writeFails buckets).1 = true
  ∧ ∀ (bucket : List String) (rest : List (List String)),
      bucket.isEmpty = false → (archiveBucket writeFails bucket).2 = false →
      archiveBuckets writeFails (bucket :: rest) =
        ((archiveBucket writeFails bucket).1, false) := by
  constructor
  · exact archiveBuckets_removesOnlyWritten writeFails buckets []
  · intro bucket rest he hz
    simp only [archiveBuckets]
    rw [if_neg (by simp [he]), if_neg (by simp [hz])]

/-- C3 witness: the amended statement applied to a failing two-file
bucket followed by a second bucket. -/
theorem claim_C3_witness :
    archiveBuckets (fun s => decide (s = "b")) [["a", "b"], ["c"]] =
      ((archiveBucket (fun s => decide (s = "b")) ["a", "b"]).1, false) :=
  (claim_C3_amended (fun s => decide (s = "b")) [["a", "b"], ["c"]]).2
    ["a", "b"] [["c"]] (by decide) (by decide)

/-! ## Claim C7 -/

/-- C7, as stated, is false on the code: the delete loop has no per-entry
recovery.  With three existing files and a removal failure on the second,
the loop raises at b: a was removed and counted, but c is neither removed
nor counted, and no partial-failure report is produced — the exception
aborts the run. -/
theorem claim_C7_counterexample :
    deleteActionLoop (fun s => decide (s = "b"))
      [("a", FKind.file), ("b", FKind.file), ("c", FKind.file)] [] ["a", "b", "c"] =
      DelResult.raised "b" [("b", FKind.file), ("c", FKind.file)] ["a"] := by
  decide

/-- C7 (amended): entry removals are not independent: once the entries
before f have been processed, an existing entry f whose removal raises
aborts the loop immediately, freezing the filesystem and the deleted list
at the failure point; the remaining entries are not attempted, and the
failure surfaces as the run-level exception of purge_efs, not as a
per-entry partial-failure count. -/
theorem claim_C7_amended (removeFails : String → Bool) (fs fs2 : FS)
    (pre : List String) (f : String) (rest deleted : List String) (k : FKind)
    (hpre : deleteActionLoop removeFails fs [] pre = DelResult.ok fs2 deleted)
    (hex : fs2.kindOf f = some k) (hfail : removeFails f = true) :
    deleteActionLoop removeFails fs [] (pre ++ f :: rest) =
      DelResult.raised f fs2 deleted := by
  rw [deleteActionLoop_append, hpre]
  simp only [deleteActionLoop, hex, hfail, if_true]

/-- C7 witness: the amended statement applied to a concrete two-file
filesystem whose second removal raises. -/
theorem claim_C7_witness :
    deleteActionLoop (fun s => decide (s = "b"))
      [("a", FKind.file), ("b", FKind.file)] [] (["a"] ++ "b" :: []) =
      DelResult.raised "b" [("b", FKind.file)] ["a"] :=
  claim_C7_amended (fun s => decide (s = "b"))
    [("a", FKind.file), ("b", FKind.file)] [("b", FKind.file)]
    ["a"] "b" [] ["a"] FKind.file (by decide) (by decide) (by decide)

/-! ## Claim C10 -/

/-- C10: a delete-action entry that does not exist on the filesystem at
disposition time (both is_file and is_dir are false) causes no mutation
and no exception, yet is still appended to the deleted list; on a list
naming the same existing file twice, the reported deleted list has two
entries while only one file was removed. -/
theorem claim_C10 :
    (∀ (removeFails : String → Bool) (fs : FS) (deleted : List String)
        (f : String) (rest : List String), fs.kindOf f = none →
      deleteActionLoop removeFails fs deleted (f :: rest) =
        deleteActionLoop removeFails fs (deleted ++ [f]) rest)
  ∧ deleteActionLoop (fun _ => false) [("a", FKind.file)] [] ["a", "a"] =
      DelResult.ok [] ["a", "a"] := by
  constructor
  · intro removeFails fs deleted f rest h
    simp only [deleteActionLoop, h]
  · decide

/-- C10 witness: the per-entry statement applied to a missing path. -/
theorem claim_C10_witness :
    deleteActionLoop (fun _ => false) [] [] ["b"] =
      deleteActionLoop (fun _ => false) [] ["b"] [] :=
  claim_C10.1 (fun _ => false) [] [] "b" [] rfl

/-! ## Lemmas about the catalog reconciler -/

theorem processCandidates_append (oracle : String → String → CmrResponse)
    (s3fail : String → Bool) (dataset : String) :
    ∀ (xs ys : List String) (st : ReconState),
    processCandidates oracle s3fail dataset (xs ++ ys) st =
      match processCandidates oracle s3fail dataset xs st with
      | StepResult.next st1 => processCandidates oracle s3fail dataset ys st1
      | r => r := by
  intro xs
  induction xs with
  | nil => intro ys st; rfl
  | cons c xs ih =>
    intro ys st
    simp only [List.cons_append, processCandidates]
    cases processCandidate oracle s3fail dataset c st with
    | next st1 => exact ih ys st1
    | earlyRet st1 => rfl
    | fatalErr st1 => rfl

theorem lookupDel_addDel_self (ds y : String) :
    ∀ dd, hasKey dd ds = true →
    lookupDel (addDel dd ds y) ds = lookupDel dd ds ++ [y] := by
  intro dd
  induction dd with
  | nil => intro h; cases h
  | cons e dd ih =>
    intro h
    by_cases he : e.1 = ds
    · simp [addDel, lookupDel, he]
    · simp only [hasKey, Bool.or_eq_true, decide_eq_true_eq] at h
      rcases h with h | h
      · exact absurd h he
      · simp only [addDel, List.map_cons, if_neg he]
        simp only [lookupDel, if_neg he]
        exact ih h

theorem mem_lookupDel_addDel (ds y key x : String) :
    ∀ dd, x ∈ lookupDel dd key → x ∈ lookupDel (addDel dd ds y) key := by
  intro dd
  induction dd with
  | nil => intro h; cases h
  | cons e dd ih =>
    intro h
    simp only [lookupDel] at h
    simp only [addDel, List.map_cons]
    by_cases he : e.1 = ds
    · rw [if_pos he]
      simp only [lookupDel]
      by_cases hk : e.1 = key
      · rw [if_pos hk] at h
        rw [if_pos hk]
        exact List.mem_append_left _ h
      · rw [if_neg hk] at h
        rw [if_neg hk]
        exact ih h
    · rw [if_neg he]
      simp only [lookupDel]
      by_cases hk : e.1 = key
      · rw [if_pos hk] at h
        rw [if_pos hk]
        exact h
      · rw [if_neg hk] at h
        rw [if_neg hk]
        exact ih h

theorem delete_l2p_mono (s3fail : String → Bool) (d l2p : String)
    (dels : List String) (x : String) (h : x ∈ dels) :
    x ∈ (delete_l2p s3fail d l2p dels).1 := by
  simp only [delete_l2p]
  split_ifs <;> simp [h]

theorem processFiles_ok (s3fail : String → Bool) (d l2p : String)
    (hs3 : ∀ k, s3fail k = false) :
    ∀ (files : List String) (st : ReconState),
    (processFiles s3fail d l2p files st).2 = true := by
  intro files
  induction files with
  | nil => intro st; rfl
  | cons nm rest ih =>
    intro st
    simp only [processFiles]
    by_cases hnm : nm = l2p ++ ".nc"
    · rw [if_pos hnm]
      simp only [delete_l2p, hs3, Bool.false_eq_true, if_false, if_true]
      exact ih _
    · rw [if_neg hnm]
      exact ih st

theorem processFiles_preserves_s3 (s3fail : String → Bool) (d l2p : String) :
    ∀ (files : List String) (st : ReconState) (x : String),
    x ∈ st.s3deleted → x ∈ (processFiles s3fail d l2p files st).1.s3deleted := by
  intro files
  induction files with
  | nil => intro st x h; exact h
  | cons nm rest ih =>
    intro st x h
    simp only [processFiles]
    by_cases hnm : nm = l2p ++ ".nc"
    · rw [if_pos hnm]
      have h2 := delete_l2p_mono s3fail d l2p st.s3deleted x h
      by_cases hr : (delete_l2p s3fail d l2p st.s3deleted).2 = true
      · rw [if_pos hr]
        exact ih _ x h2
      · rw [if_neg hr]
        exact h2
    · rw [if_neg hnm]
      exact ih st x h

theorem processFiles_preserves_del (s3fail : String → Bool) (d l2p : String) :
    ∀ (files : List String) (st : ReconState) (x key : String),
    x ∈ lookupDel st.delDict key →
    x ∈ lookupDel (processFiles s3fail d l2p files st).1.delDict key := by
  intro files
  induction files with
  | nil => intro st x key h; exact h
  | cons nm rest ih =>
    intro st x key h
    simp only [processFiles]
    by_cases hnm : nm = l2p ++ ".nc"
    · rw [if_pos hnm]
      have h2 := mem_lookupDel_addDel d l2p key x st.delDict h
      by_cases hr : (delete_l2p s3fail d l2p st.s3deleted).2 = true
      · rw [if_pos hr]
        exact ih _ x key h2
      · rw [if_neg hr]
        exact h2
    · rw [if_neg hnm]
      exact ih st x key h

theorem processFiles_mem (s3fail : String → Bool) (d l2p : String)
    (hs3 : ∀ k, s3fail k = false) :
    ∀ (files : List String) (st : ReconState),
    (l2p ++ ".nc") ∈ files → hasKey st.delDict d = true →
    (d ++ "/" ++ l2p ++ ".nc") ∈ (processFiles s3fail d l2p files st).1.s3deleted ∧
    (d ++ "/" ++ l2p ++ ".nc.md5") ∈ (processFiles s3fail d l2p files st).1.s3deleted ∧
    l2p ∈ lookupDel (processFiles s3fail d l2p files st).1.delDict d := by
  intro files
  induction files with
  | nil => intro st hmem; cases hmem
  | cons nm rest ih =>
    intro st hmem hkey
    simp only [processFiles]
    by_cases hnm : nm = l2p ++ ".nc"
    · rw [if_pos hnm]
      simp only [delete_l2p, hs3, Bool.false_eq_true, if_false, if_true]
      refine ⟨processFiles_preserves_s3 s3fail d l2p rest _ _ (by simp),
        processFiles_preserves_s3 s3fail d l2p rest _ _ (by simp),
        processFiles_preserves_del s3fail d l2p rest _ _ _ ?_⟩
      rw [lookupDel_addDel_self d l2p st.delDict hkey]
      simp
    · rw [if_neg hnm]
      have hmem2 : (l2p ++ ".nc") ∈ rest := by
        rcases List.mem_cons.mp hmem with h | h
        · exact absurd h.symm hnm
        · exact h
      exact ih st hmem2 hkey

/-! ## Claim C5 -/

/-- C5: an unexpected exception while processing a candidate (a request
or decode failure, modelled by the badResp branch) makes
query_cmr_and_delete return exactly the del_dict accumulated so far: the
only additional side effect is the query for the failing candidate
itself, and no query or staging deletion happens for the remaining
candidates of that dataset or for any later dataset. -/
theorem claim_C5 (oracle : String → String → CmrResponse)
    (s3fail : String → Bool) (dataset : String) (pre post : List String)
    (c : String) (rest : List (String × List String)) (st0 stPre : ReconState)
    (hpre : processCandidates oracle s3fail dataset pre
        { st0 with delDict := st0.delDict ++ [(dataset, [])] } =
        StepResult.next stPre)
    (hc : oracle dataset c = CmrResponse.badResp) :
    query_cmr_and_delete oracle s3fail ((dataset, pre ++ c :: post) :: rest) st0 =
      ReconResult.ok { stPre with queries := stPre.queries ++ [(dataset, c)] } := by
  simp only [query_cmr_and_delete]
  rw [processCandidates_append, hpre]
  simp only [processCandidates, processCandidate, hc]

/-- C5 witness: after the confirmed deletion of candidate A, the failing
candidate B stops everything: Z and the terra dataset are never queried,
and the returned del_dict records exactly the deletion of A. -/
theorem claim_C5_witness :
    query_cmr_and_delete
      (fun _ l => if l = "A" then CmrResponse.okResp 1 [["A.nc"]]
        else if l = "B" then CmrResponse.badResp else CmrResponse.noKeys)
      (fun _ => false)
      [("aqua", ["A"] ++ "B" :: ["Z"]), ("terra", ["Q"])] ⟨[], [], []⟩ =
      ReconResult.ok ⟨[("aqua", ["A"])], [("aqua", "A"), ("aqua", "B")],
        ["aqua/A.nc", "aqua/A.nc.md5"]⟩ :=
  claim_C5
    (fun _ l => if l = "A" then CmrResponse.okResp 1 [["A.nc"]]
      else if l = "B" then CmrResponse.badResp else CmrResponse.noKeys)
    (fun _ => false) "aqua" ["A"] ["Z"] "B" [("terra", ["Q"])] ⟨[], [], []⟩
    ⟨[("aqua", ["A"])], [("aqua", "A")], ["aqua/A.nc", "aqua/A.nc.md5"]⟩
    (by decide) (by decide)

/-! ## Claim C6 -/

/-- C6, as stated, is false on the code: query_cmr_and_delete inspects
only the first item of the response (coll.items[0]).  For a candidate
whose response has one hit and whose matching archive-distribution entry
sits in the second item, nothing is deleted and nothing is recorded,
although an entry named A.nc does occur among the items. -/
theorem claim_C6_counterexample :
    query_cmr_and_delete
      (fun _ l => if l = "A" then CmrResponse.okResp 1 [[], ["A.nc"]]
        else CmrResponse.noKeys)
      (fun _ => false) [("aqua", ["A"])] ⟨[], [], []⟩ =
      ReconResult.ok ⟨[("aqua", [])], [("aqua", "A")], []⟩
  ∧ ([[], ["A.nc"]] : List (List String)).any
      (fun item => item.contains ("A" ++ ".nc")) = true := by
  refine ⟨by decide, by decide⟩

/-- C6 (amended): when the response for a candidate has a positive hits
count and the matching entry name occurs in the FIRST item, the
reconciler records the identifier in del_dict for its dataset and deletes
the data object and its checksum sidecar as a pair from the staging
store, then goes on to the next candidate; and a key whose last segment
contains .nc.md5 never becomes a candidate in parse_s3_response. -/
theorem claim_C6_amended :
    (∀ (oracle : String → String → CmrResponse) (s3fail : String → Bool)
        (dataset l2p : String) (st : ReconState) (hits : Nat)
        (files : List String) (more : List (List String)),
      oracle dataset l2p = CmrResponse.okResp hits (files :: more) →
      ¬ hits = 0 →
      (l2p ++ ".nc") ∈ files →
      (∀ k, s3fail k = false) →
      hasKey st.delDict dataset = true →
      (processCandidate oracle s3fail dataset l2p st).isNext = true ∧
      (dataset ++ "/" ++ l2p ++ ".nc") ∈
        (stepState (processCandidate oracle s3fail dataset l2p st)).s3deleted ∧
      (dataset ++ "/" ++ l2p ++ ".nc.md5") ∈
        (stepState (processCandidate oracle s3fail dataset l2p st)).s3deleted ∧
      l2p ∈ lookupDel
        (stepState (processCandidate oracle s3fail dataset l2p st)).delDict
        dataset)
  ∧ ∀ key : String,
      strHas ((pySplit key "/").getLastD "") ".nc.md5" = true →
      parse_s3_key key = none := by
  constructor
  · intro oracle s3fail dataset l2p st hits files more hresp hh hmem hs3 hkey
    have hok := processFiles_ok s3fail dataset l2p hs3 files
      { st with queries := st.queries ++ [(dataset, l2p)] }
    have hm := processFiles_mem s3fail dataset l2p hs3 files
      { st with queries := st.queries ++ [(dataset, l2p)] } hmem hkey
    simp only [processCandidate, hresp, if_neg hh, hok, if_true]
    exact ⟨rfl, hm.1, hm.2.1, hm.2.2⟩
  · intro key h
    simp only [parse_s3_key, h, if_pos]

/-- C6 witness: the amended statement applied to a confirmed candidate A
of the aqua dataset. -/
theorem claim_C6_witness :
    (processCandidate (fun _ _ => CmrResponse.okResp 1 [["A.nc"]])
        (fun _ => false) "aqua" "A" ⟨[("aqua", [])], [], []⟩).isNext = true
  ∧ ("aqua" ++ "/" ++ "A" ++ ".nc") ∈
      (stepState (processCandidate (fun _ _ => CmrResponse.okResp 1 [["A.nc"]])
        (fun _ => false) "aqua" "A" ⟨[("aqua", [])], [], []⟩)).s3deleted
  ∧ ("aqua" ++ "/" ++ "A" ++ ".nc.md5") ∈
      (stepState (processCandidate (fun _ _ => CmrResponse.okResp 1 [["A.nc"]])
        (fun _ => false) "aqua" "A" ⟨[("aqua", [])], [], []⟩)).s3deleted
  ∧ "A" ∈ lookupDel
      (stepState (processCandidate (fun _ _ => CmrResponse.okResp 1 [["A.nc"]])
        (fun _ => false) "aqua" "A" ⟨[("aqua", [])], [], []⟩)).delDict "aqua" :=
  claim_C6_amended.1 (fun _ _ => CmrResponse.okResp 1 [["A.nc"]])
    (fun _ => false) "aqua" "A" ⟨[("aqua", [])], [], []⟩ 1 ["A.nc"] []
    rfl (by decide) (by decide) (fun _ => rfl) (by decide)

/-! ## Claim C9 -/

/-- C9, as stated, is false on the code: publish_event terminates the
process.  A ClientError from list_topics is logged and then sys.exit(1)
runs, and a ClientError from the publish call is likewise followed by
sys.exit(1): the process is killed from inside the leaf function rather
than returning after logging. -/
theorem claim_C9_counterexample :
    publish_event none (fun _ => false) = SnsOutcome.exited 1
  ∧ publish_event (some ["arn:aws:sns:us-west-2:1:svc-batch-job-failure"])
      (fun _ => true) = SnsOutcome.exited 1 := by
  refine ⟨rfl, by decide⟩

/-- C9 (amended): a failure to list topics, or a failure to publish to
the selected topic, is logged and then terminates the process with exit
status 1; there is no retry.  Only when listing succeeds, a topic ARN
containing the marker substring is found and the publish call succeeds is
the message published. -/
theorem claim_C9_amended (publishFails : String → Bool)
    (topics : List String) (arn : String)
    (hfind : findTopic topics = some arn) :
    publish_event none publishFails = SnsOutcome.exited 1
  ∧ (publishFails arn = true →
      publish_event (some topics) publishFails = SnsOutcome.exited 1)
  ∧ (publishFails arn = false →
      publish_event (some topics) publishFails = SnsOutcome.published arn) := by
  refine ⟨rfl, ?_, ?_⟩
  · intro h
    simp [publish_event, hfind, h]
  · intro h
    simp [publish_event, hfind, h]

/-- C9 witness: the amended statement applied to a topic listing with a
matching ARN whose publish call raises. -/
theorem claim_C9_witness :
    publish_event (some ["arn:x-batch-job-failure-y"]) (fun _ => true) =
      SnsOutcome.exited 1 :=
  (claim_C9_amended (fun _ => true) ["arn:x-batch-job-failure-y"]
    "arn:x-batch-job-failure-y" (by decide)).2.1 rfl

end Purger
